import Mathlib

/-!
Verification development for the merkle-tree-benchmark repository.

The Go sources are shallowly embedded as follows:
- byte slices become List Nat (one Nat per byte);
- the hash engine (crypto sha256 behind the Hash abstraction) becomes an
  abstract total function on byte sequences, since the Go hash.Hash Write
  contract never returns an error;
- the Data interface (caller supplied, may fail to hash) becomes a function
  Item to Option Digest, with none modelling a hashing failure; the built in
  StringData implementation, which digests the raw bytes with the engine and
  never fails, is stringDataHash;
- the pointer graph of the built tree (Root, Leaves, Parent / Left / Right
  fields) is represented by the list of levels of the tree: level 0 is the
  Leaves array, the last level holds the root, and the node at index c of
  level t + 1 has as children the nodes at indices 2c and (2c + 1, clamped
  for the self paired leftover) of level t, exactly as generateParentNodes
  wires them; parent links follow the same index arithmetic;
- the sequential functions below compute the race free semantics of the
  goroutine fan out: each concurrent unit writes a distinct pre-allocated
  slot. This is exact for the non pooled path (and for builds with a single
  worker), but NOT for the pooled concurrent path: concat releases its
  pooled buffer (defer cb.Close()) back into the shared sync.Pool before
  the caller reads the buffer in hf.Write, so with buffer reuse enabled and
  two or more workers another worker can overwrite the buffer mid hash.
  That use after release window is modelled explicitly by concatPooled and
  BuildPooled below, which take an interference schedule recording which
  combine steps had their buffer refilled by another worker first.
-/

/-- A digest or any byte sequence: one Nat per byte. -/
abbrev Digest := List Nat

/-- An input item, i.e. the byte sequence of a StringData value. -/
abbrev Item := List Nat

/-- Go bytes.Compare: lexicographic byte comparison returning -1, 0 or 1. -/
def bytesCompare : List Nat → List Nat → Int
  | [], [] => 0
  | [], _ :: _ => -1
  | _ :: _, [] => 1
  | a :: as, b :: bs => if a < b then -1 else if b < a then 1 else bytesCompare as bs

/-- The Hasher struct of hash.go: the pairing sort flag and the engine.
The Pool field is not stored here. The hash engine pool is digest
equivalent to fresh engines (an engine is Reset before reuse and is held
privately by one worker from getHash until Sum), so it needs no separate
model. The concat buffer pool is NOT equivalent under concurrency and is
modelled separately: concat below is the fresh allocation branch, and
concatPooled is the pooled branch, whose buffer is already released when
the caller reads it. -/
structure Hasher where
  isSort : Bool
  hashFn : Digest → Digest

/-- The concat routine of the source (buffer fill for combining two
digests), in its isReuseBuffAllocation = false branch: a fresh zeroed
256+256 byte buffer is allocated; if isSort is set and b1 compares greater
than b2 the operands are swapped; the first loop copies b1 into the buffer;
the second loop runs j from len b1 while j is below len b2 and writes b1 at
index i - len b1 = 0 (the source reads b1, not b2, here); the whole buffer
is returned. In Go an empty b1 with nonempty b2 would panic on the index;
the model returns the default 0 there (that case is unreachable: digests
are nonempty). This function also gives the quiet (no concurrent writer)
behaviour of the pooled branch, whose racy behaviour is concatPooled
below. -/
def concatFill (c1 c2 : List Nat) : List Nat :=
  let buf := List.replicate (256 + 256) 0
  let buf := (List.range c1.length).foldl (fun acc i => acc.set i (c1.getD i 0)) buf
  (List.range' c1.length (c2.length - c1.length)).foldl
    (fun acc j => acc.set j (c1.getD 0 0)) buf

def concat (isSort : Bool) (b1 b2 : List Nat) : List Nat :=
  if isSort && (bytesCompare b1 b2 == 1) then concatFill b2 b1 else concatFill b1 b2

/-- The combination step shared by build (NewParentNode) and verify
(computeNodeHash and the Verify loop): hash the concat buffer. -/
def combineDigests (h : Hasher) (d1 d2 : Digest) : Digest :=
  h.hashFn (concat h.isSort d1 d2)

theorem bytesCompare_cases (a b : List Nat) :
    bytesCompare a b = -1 ∨ bytesCompare a b = 0 ∨ bytesCompare a b = 1 := by
  induction a generalizing b with
  | nil => cases b <;> simp [bytesCompare]
  | cons x xs ih =>
    cases b with
    | nil => simp [bytesCompare]
    | cons y ys =>
      by_cases hxy : x < y
      · simp [bytesCompare, hxy]
      · by_cases hyx : y < x
        · simp [bytesCompare, hxy, hyx]
        · simpa [bytesCompare, hxy, hyx] using ih ys

theorem bytesCompare_swap (a b : List Nat) :
    bytesCompare b a = -bytesCompare a b := by
  induction a generalizing b with
  | nil => cases b <;> simp [bytesCompare]
  | cons x xs ih =>
    cases b with
    | nil => simp [bytesCompare]
    | cons y ys =>
      by_cases hxy : x < y
      · have hyx : ¬ y < x := by omega
        simp [bytesCompare, hxy, hyx]
      · by_cases hyx : y < x
        · simp [bytesCompare, hxy, hyx]
        · simpa [bytesCompare, hxy, hyx] using ih ys

theorem bytesCompare_eq_zero (a b : List Nat) (h : bytesCompare a b = 0) : a = b := by
  induction a generalizing b with
  | nil =>
    cases b with
    | nil => rfl
    | cons y ys => simp [bytesCompare] at h
  | cons x xs ih =>
    cases b with
    | nil => simp [bytesCompare] at h
    | cons y ys =>
      by_cases hxy : x < y
      · simp [bytesCompare, hxy] at h
      · by_cases hyx : y < x
        · simp [bytesCompare, hxy, hyx] at h
        · have hx : x = y := by omega
          have := ih ys (by simpa [bytesCompare, hxy, hyx] using h)
          simp [hx, this]

theorem concat_sorted_comm (d1 d2 : List Nat) :
    concat true d1 d2 = concat true d2 d1 := by
  rcases bytesCompare_cases d1 d2 with hlt | heq | hgt
  · have h21 : bytesCompare d2 d1 = 1 := by rw [bytesCompare_swap d1 d2]; omega
    simp only [concat, hlt, h21, Bool.true_and]
    rw [if_neg (by simp), if_pos (by simp)]
  · rw [bytesCompare_eq_zero d1 d2 heq]
  · have h21 : bytesCompare d2 d1 = -1 := by rw [bytesCompare_swap d1 d2]; omega
    simp only [concat, hgt, h21, Bool.true_and]
    rw [if_pos (by simp), if_neg (by simp)]

theorem concatFill_snd_irrelevant (c1 c2 c3 : List Nat)
    (h2 : c2.length ≤ c1.length) (h3 : c3.length ≤ c1.length) :
    concatFill c1 c2 = concatFill c1 c3 := by
  unfold concatFill
  rw [Nat.sub_eq_zero_of_le h2, Nat.sub_eq_zero_of_le h3]

/-- C5: when the pairing sort flag is enabled, the combination step is
commutative: combine of d1 and d2 equals combine of d2 and d1 for every
pair of digests. -/
theorem merkle_c5 (hf : Digest → Digest) (d1 d2 : Digest) :
    combineDigests ⟨true, hf⟩ d1 d2 = combineDigests ⟨true, hf⟩ d2 d1 := by
  unfold combineDigests
  exact congrArg hf (concat_sorted_comm d1 d2)

/-- C10: with the pairing sort flag disabled and 32 byte operands, the
combination step ignores its second operand entirely, because the copy loop
for the second operand executes zero iterations when its length does not
exceed the first operand length; so a parent digest depends only on the
left child digest. -/
theorem merkle_c10 (hf : Digest → Digest) (d1 d2 d3 : Digest)
    (h1 : d1.length = 32) (h2 : d2.length = 32) (h3 : d3.length = 32) :
    combineDigests ⟨false, hf⟩ d1 d2 = combineDigests ⟨false, hf⟩ d1 d3 := by
  unfold combineDigests
  refine congrArg hf ?_
  show concat false d1 d2 = concat false d1 d3
  simp only [concat, Bool.false_and, if_neg Bool.false_ne_true]
  exact concatFill_snd_irrelevant d1 d2 d3 (by omega) (by omega)

theorem merkle_c10_witness :
    (List.replicate 32 (1 : Nat)).length = 32 ∧
    (List.replicate 32 (2 : Nat)).length = 32 ∧
    (List.replicate 32 (3 : Nat)).length = 32 ∧
    combineDigests ⟨false, fun l => l⟩ (List.replicate 32 1) (List.replicate 32 2) =
      combineDigests ⟨false, fun l => l⟩ (List.replicate 32 1) (List.replicate 32 3) :=
  ⟨by decide, by decide, by decide,
    merkle_c10 (fun l => l) (List.replicate 32 1) (List.replicate 32 2)
      (List.replicate 32 3) (by decide) (by decide) (by decide)⟩

set_option maxRecDepth 8000 in
/-- C2 is violated by the code (the spec itself flags this as the buffer
concatenation defect): the second operand is never copied into the buffer.
At 32 byte operands the result is identical for different second operands,
and buffer position 32, which per the claim should hold the first byte of
the second operand (value 2), holds the untouched zero instead. -/
theorem merkle_c2_code_eval :
    concat false (List.replicate 32 1) (List.replicate 32 2) =
      concat false (List.replicate 32 1) (List.replicate 32 3) ∧
    (concat false (List.replicate 32 1) (List.replicate 32 2)).getD 32 99 = 0 ∧
    (List.replicate 32 (2 : Nat)).getD 0 99 = 2 := by
  refine ⟨by decide, by decide, by decide⟩

/-- A node of the tree (node.go). The Parent, Left and Right pointers are
not stored here: they are encoded by the position of the node in the level
lists of the MerkleTree below, following exactly the index arithmetic with
which generateParentNodes wires them. -/
structure GNode where
  hash : Digest
  data : Option Item
  isOrphan : Bool
deriving DecidableEq

/-- Indexing a level, with a default node for the unreachable out of range
case (a nil pointer dereference in Go). -/
def getNode : List GNode → Nat → GNode
  | [], _ => { hash := [], data := none, isOrphan := false }
  | n :: _, 0 => n
  | _ :: ns, k + 1 => getNode ns k

/-- Indexing the list of levels. -/
def levelAt : List (List GNode) → Nat → List GNode
  | [], _ => []
  | l :: _, 0 => l
  | _ :: ls, t + 1 => levelAt ls t

/-- Indexing the input data slice, as in data[len(data)-1]. -/
def itemAt : List Item → Nat → Item
  | [], _ => []
  | d :: _, 0 => d
  | _ :: ds, k + 1 => itemAt ds k

/-- The digest method of the Data interface: caller defined, may fail
(none models a failed write into the engine). -/
def ItemHash : Type := Item → Option Digest

/-- The StringData implementation of Data: digest the raw bytes with the
engine; never fails, since the sha256 Write never errors. -/
def stringDataHash (h : Hasher) : ItemHash := fun s => some (h.hashFn s)

/-- The build error values of merkle_tree.go. The first two model the
ConfigInvalid family (ErrMerkleTreeConfigHasherIsNil and
ErrMerkleTreeConfigMaxGoroutineIsEqZero), dataIsNilOrEmpty models
EmptyInput (ErrMerkleTreeDataIsNilOrEmpty) and hashFailure models a
propagated digest computation error from a leaf worker. The configIsNil
check of Build is not modelled: NewMerkleTreeBuilder always allocates the
config, so the builder surface cannot reach it. -/
inductive BuildError where
  | configHasherIsNil
  | configMaxGoroutineIsEqZero
  | dataIsNilOrEmpty
  | hashFailure
deriving DecidableEq

inductive VerifyError where
  | hashFailure
deriving DecidableEq

/-- The concurrent leaf creation loop of generateLeafNodes: one leaf per
item, each written to its own slot; the first failing worker aborts the
build (list order stands in for the first observed error). -/
def mkLeaves (ih : ItemHash) : List Item → Except BuildError (List GNode)
  | [] => .ok []
  | d :: ds =>
    match ih d, mkLeaves ih ds with
    | some b, .ok rest => .ok ({ hash := b, data := some d, isOrphan := false } :: rest)
    | none, _ => .error .hashFailure
    | some _, .error e => .error e

/-- The serial padding step of generateLeafNodes: for an odd item count a
new orphan leaf wrapping data[len(data)-1] is appended. -/
def padLeaves (ih : ItemHash) (data : List Item) (leaves : List GNode) :
    Except BuildError (List GNode) :=
  if data.length % 2 = 1 then
    match ih (itemAt data (data.length - 1)) with
    | some b => .ok (leaves ++ [{ hash := b, data := some (itemAt data (data.length - 1)), isOrphan := true }])
    | none => .error .hashFailure
  else .ok leaves

/-- One insertion step of the leaf sort (NodeSorter orders by ascending
lexicographic digest comparison). -/
def insertNode (a : GNode) : List GNode → List GNode
  | [] => [a]
  | b :: bs => if bytesCompare a.hash b.hash = -1 then a :: b :: bs else b :: insertNode a bs

/-- The in place sort.Sort over NodeSorter: modelled by a deterministic
comparison sort on the same Less relation. The Go sort is unstable but
deterministic for a fixed input, and every claim below depends only on the
digest multiset or on the unsorted branch, so the choice of algorithm is
immaterial. -/
def sortNodes : List GNode → List GNode
  | [] => []
  | a :: as => insertNode a (sortNodes as)

/-- generateLeafNodes of merkle_tree.go: reject empty data, hash every item
into a leaf, append the orphan padding leaf for an odd count, then sort the
leaf array by digest when the sort flag is set. -/
def generateLeafNodes (h : Hasher) (ih : ItemHash) (data : List Item) :
    Except BuildError (List GNode) :=
  if data.length = 0 then .error .dataIsNilOrEmpty
  else
    match mkLeaves ih data with
    | .error e => .error e
    | .ok leaves =>
      match padLeaves ih data leaves with
      | .error e => .error e
      | .ok padded => .ok (if h.isSort then sortNodes padded else padded)

/-- The right child index chosen by the generateParentNodes worker: the
pair partner 2c+1, except that the last unmatched node of an odd level is
paired with itself (right = left). -/
def rightChildIdx (len c : Nat) : Nat :=
  if 2 * c + 1 = len then 2 * c else 2 * c + 1

/-- One level reduction step of generateParentNodes: the next level is
pre-allocated with ceil(len/2) slots and slot c holds the parent of the
nodes at indices 2c and rightChildIdx, hashed with the shared combination
step. -/
def buildNextLevel (h : Hasher) (ns : List GNode) : List GNode :=
  (List.range ((ns.length + 1) / 2)).map (fun c =>
    { hash := combineDigests h (getNode ns (2 * c)).hash
        (getNode ns (rightChildIdx ns.length c)).hash,
      data := none, isOrphan := false })

/-- The recursion of generateParentNodes, recorded as the list of levels
(this is the pointer graph the build leaves behind: each node of level t
points to its parent at index c = i / 2 of level t + 1). The two node base
case stops after producing the root level. The fuel argument bounds the
recursion; Build passes the leaf count, which always suffices since every
level at least halves. -/
def buildLevels (h : Hasher) : Nat → List GNode → List (List GNode)
  | 0, ns => [ns]
  | fuel + 1, ns =>
    if ns.length = 2 then [ns, buildNextLevel h ns]
    else ns :: buildLevels h fuel (buildNextLevel h ns)

/-- The MerkleTreeConfig relevant to the core: the (possibly nil) hasher
and the goroutine cap. The buffer reuse flag is omitted, see Hasher. -/
structure MerkleTreeConfig where
  hasher : Option Hasher
  maxGoroutine : Nat

/-- The built tree: its levels (level 0 is the Leaves array, the last level
holds the root) and the configuration hasher it stores. -/
structure MerkleTree where
  levels : List (List GNode)
  hasher : Hasher

/-- The Leaves array of the tree. -/
def leavesOf (mt : MerkleTree) : List GNode := levelAt mt.levels 0

/-- The digest of the tree root. -/
def rootHash (mt : MerkleTree) : Digest :=
  (getNode (levelAt mt.levels (mt.levels.length - 1)) 0).hash

/-- Build of merkle_tree.go: validate the configuration fail fast (nil
hasher, zero goroutine cap, empty data, in that order), then generate the
leaves and reduce them level by level to the root. -/
def Build (cfg : MerkleTreeConfig) (ih : ItemHash) (data : List Item) :
    Except BuildError MerkleTree :=
  match cfg.hasher with
  | none => .error .configHasherIsNil
  | some h =>
    if cfg.maxGoroutine = 0 then .error .configMaxGoroutineIsEqZero
    else if data.length = 0 then .error .dataIsNilOrEmpty
    else
      match generateLeafNodes h ih data with
      | .error e => .error e
      | .ok leaves => .ok { levels := buildLevels h leaves.length leaves, hasher := h }

/-- The leaf scan of Verify: index of the first leaf whose stored digest
equals the query digest. -/
def firstMatchIdx : List GNode → Digest → Option Nat
  | [], _ => none
  | n :: ns, qh => if n.hash = qh then some 0 else (firstMatchIdx ns qh).map (· + 1)

/-- computeNodeHash of merkle_tree.go, for the node sitting at index k of
some level whose child level is grand: a leaf is recomputed from its own
item, an internal node is recomputed from the stored digests of its two
children (never from its own stored digest). -/
def computeNodeHash (h : Hasher) (ih : ItemHash) (grand : List GNode) (n : GNode) (k : Nat) :
    Option Digest :=
  match n.data with
  | some d => ih d
  | none =>
    some (combineDigests h (getNode grand (2 * k)).hash
      (getNode grand (rightChildIdx grand.length k)).hash)

/-- The parent chain walk of Verify, starting from the leaf at index i of
level cur with the remaining levels above it: at each parent, recompute the
digests of its two children, combine them, and compare against the stored
parent digest; any mismatch answers false, reaching past the root answers
true, and a failed digest computation is an error. -/
def verifyWalk (h : Hasher) (ih : ItemHash) :
    List GNode → List GNode → List (List GNode) → Nat → Except VerifyError Bool
  | _, _, [], _ => .ok true
  | grand, cur, parentLvl :: rest, i =>
    match computeNodeHash h ih grand (getNode cur (2 * (i / 2))) (2 * (i / 2)),
          computeNodeHash h ih grand (getNode cur (rightChildIdx cur.length (i / 2)))
            (rightChildIdx cur.length (i / 2)) with
    | some leftH, some rightH =>
      if combineDigests h leftH rightH = (getNode parentLvl (i / 2)).hash then
        verifyWalk h ih cur parentLvl rest (i / 2)
      else .ok false
    | _, _ => .error .hashFailure

/-- Verify of merkle_tree.go: false without error on a tree with no
leaves; otherwise digest the query item, scan the leaves for the first
digest match, and walk the parent chain from that leaf. -/
def Verify (ih : ItemHash) (mt : MerkleTree) (item : Item) : Except VerifyError Bool :=
  match mt.levels with
  | [] => .ok false
  | l0 :: rest =>
    if l0.length = 0 then .ok false
    else
      match ih item with
      | none => .error .hashFailure
      | some qh =>
        match firstMatchIdx l0 qh with
        | none => .ok false
        | some i => verifyWalk mt.hasher ih [] l0 rest i

/-- Post build mutation of the stored digest of one node (the tampering
scenario): the node at index m of level j gets the digest hNew; nothing
else changes, in particular the structure of the pointer graph. -/
def tamperNode (n : GNode) (hNew : Digest) : GNode :=
  { n with hash := hNew }

def tamperLevel : List GNode → Nat → Digest → List GNode
  | [], _, _ => []
  | n :: ns, 0, hNew => tamperNode n hNew :: ns
  | n :: ns, m + 1, hNew => n :: tamperLevel ns m hNew

def tamper : List (List GNode) → Nat → Nat → Digest → List (List GNode)
  | [], _, _, _ => []
  | l :: ls, 0, m, hNew => tamperLevel l m hNew :: ls
  | l :: ls, j + 1, m, hNew => l :: tamper ls j m hNew

/-- Hash.IsValid of hash.go: only the sha256 identifier is in the closed
enum; the unknown placeholder and every other string are invalid. -/
def HashIsValid (s : String) : Bool :=
  if s = "sha256" then true
  else if s = "unknown" then false
  else false

/-- The outcome of Hash.HashFunc (and Hash.Hash) of hash.go: either the
sha256 engine constructor, or a runtime panic carrying the formatted
ErrHashNotAllowed message, which terminates the process. -/
inductive HashFuncResult where
  | engine
  | panicked (msg : String)
deriving DecidableEq

def HashHashFunc (s : String) : HashFuncResult :=
  if s = "sha256" then .engine
  else .panicked ("Hash<" ++ s ++ "> is not recognized")

/-- The isReuseBuffAllocation = true branch of concat. The buffer comes
from the shared sync.Pool and defer cb.Close() puts it back when concat
returns, which is before the caller reads the returned slice in hf.Write.
If no other worker touches the buffer in that window (racer = none, which
is guaranteed when at most one worker runs, and always holds for the
single threaded Verify), the bytes read are the own fill and the result
is that of concat. If another worker gets the same buffer first and runs
its own fill over operands e1, e2 (racer = some (e1, e2)), the caller
hashes that fill instead: positions 0 to 31 hold the other pair, the rest
is unchanged, exactly the state concat leaves for 32 byte digests. -/
def concatPooled (isSort : Bool) (racer : Option (Digest × Digest))
    (b1 b2 : List Nat) : List Nat :=
  match racer with
  | none => concat isSort b1 b2
  | some (e1, e2) => concat isSort e1 e2

/-- One level reduction step of generateParentNodes on the pooled path,
under an interference schedule telling for each slot whether another
worker refilled the released concat buffer before this worker hashed
it. -/
def buildNextLevelPooled (h : Hasher) (sched : Nat → Option (Digest × Digest))
    (ns : List GNode) : List GNode :=
  (List.range ((ns.length + 1) / 2)).map (fun c =>
    { hash := h.hashFn (concatPooled h.isSort (sched c) (getNode ns (2 * c)).hash
        (getNode ns (rightChildIdx ns.length c)).hash),
      data := none, isOrphan := false })

/-- The level recursion of generateParentNodes on the pooled path; the
schedule is indexed by level and slot. -/
def buildLevelsPooled (h : Hasher) (sched : Nat → Nat → Option (Digest × Digest)) :
    Nat → Nat → List GNode → List (List GNode)
  | _, 0, ns => [ns]
  | t, fuel + 1, ns =>
    if ns.length = 2 then [ns, buildNextLevelPooled h (sched t) ns]
    else ns :: buildLevelsPooled h sched (t + 1) fuel (buildNextLevelPooled h (sched t) ns)

/-- Build with buffer pooling enabled, under an interference schedule for
the concat buffer race windows. The leaf phase is unaffected: StringData
digesting uses the hash engine pool, whose engines are held privately
between getHash and Sum. A schedule that is none everywhere is a run in
which every race window stayed quiet and coincides with the race free
Build; a schedule with an interference entry is an equally possible run
of the same program under the Go memory model. -/
def BuildPooled (cfg : MerkleTreeConfig) (ih : ItemHash)
    (sched : Nat → Nat → Option (Digest × Digest)) (data : List Item) :
    Except BuildError MerkleTree :=
  match cfg.hasher with
  | none => .error .configHasherIsNil
  | some h =>
    if cfg.maxGoroutine = 0 then .error .configMaxGoroutineIsEqZero
    else if data.length = 0 then .error .dataIsNilOrEmpty
    else
      match generateLeafNodes h ih data with
      | .error e => .error e
      | .ok leaves =>
        .ok { levels := buildLevelsPooled h sched 0 leaves.length leaves, hasher := h }

/-- A small concrete hasher for witnesses: digest is the byte sum mod 256. -/
def benchHasher : Hasher := ⟨false, fun l => [(l.foldl (fun a b => a + b) 0) % 256]⟩

/-- C6: Build on empty data fails with the EmptyInput error, Build with a
zero goroutine cap fails with the zero concurrency ConfigInvalid error, and
Build with a nil hasher fails with the nil hasher ConfigInvalid error; in
each case the error is produced by the fail fast validation prologue, before
any leaf or parent hashing, and no tree value is returned (the result is the
error branch of the sum). -/
theorem merkle_c6 (h : Hasher) (ih : ItemHash) (mg : Nat) (data : List Item) :
    Build { hasher := none, maxGoroutine := mg } ih data = .error .configHasherIsNil ∧
    Build { hasher := some h, maxGoroutine := 0 } ih data = .error .configMaxGoroutineIsEqZero ∧
    (mg ≠ 0 → Build { hasher := some h, maxGoroutine := mg } ih [] = .error .dataIsNilOrEmpty) := by
  refine ⟨rfl, rfl, fun hmg => ?_⟩
  simp [Build, hmg]

theorem merkle_c6_witness :
    (5 : Nat) ≠ 0 ∧
    Build { hasher := some benchHasher, maxGoroutine := 5 } (fun s => some s) [] =
      .error .dataIsNilOrEmpty :=
  ⟨by decide, (merkle_c6 benchHasher (fun s => some s) 5 []).2.2 (by decide)⟩

/-- C7 as stated is false at the identifier md5: constructing the engine
for an identifier outside the closed enum does not produce a
HashNotSupported error value; Hash.HashFunc panics with the formatted
ErrHashNotAllowed message, terminating the process. -/
theorem merkle_c7_counterexample :
    HashHashFunc "md5" = .panicked "Hash<md5> is not recognized" ∧
    HashHashFunc "md5" ≠ .engine := by
  refine ⟨by decide, by decide⟩

/-- C7 amended: an identifier outside the closed enum is reported as
invalid by Hash.IsValid, and Hash.HashFunc on it panics with the
hash-not-recognized message instead of returning an error value. -/
theorem merkle_c7_amended (s : String) (hs : s ≠ "sha256") :
    HashIsValid s = false ∧
    HashHashFunc s = .panicked ("Hash<" ++ s ++ "> is not recognized") := by
  constructor
  · unfold HashIsValid
    rw [if_neg hs]
    split <;> rfl
  · unfold HashHashFunc
    rw [if_neg hs]

theorem merkle_c7_witness :
    ("sha512" : String) ≠ "sha256" ∧ HashIsValid "sha512" = false ∧
    HashHashFunc "sha512" = .panicked ("Hash<" ++ "sha512" ++ "> is not recognized") :=
  ⟨by decide, (merkle_c7_amended "sha512" (by decide)).1, (merkle_c7_amended "sha512" (by decide)).2⟩

theorem firstMatchIdx_eq_none (l : List GNode) (qh : Digest)
    (h : ∀ n ∈ l, n.hash ≠ qh) : firstMatchIdx l qh = none := by
  induction l with
  | nil => rfl
  | cons n ns ihl =>
    have h1 : n.hash ≠ qh := h n (by simp)
    simp [firstMatchIdx, h1, ihl (fun m hm => h m (by simp [hm]))]

theorem computeNodeHash_isSome (h : Hasher) (ih : ItemHash)
    (htot : ∀ d, (ih d).isSome) (grand : List GNode) (n : GNode) (k : Nat) :
    (computeNodeHash h ih grand n k).isSome := by
  unfold computeNodeHash
  cases hd : n.data with
  | none => simp
  | some d => simpa using htot d

theorem verifyWalk_isOk (h : Hasher) (ih : ItemHash) (htot : ∀ d, (ih d).isSome) :
    ∀ (rest : List (List GNode)) (grand cur : List GNode) (i : Nat),
      ∃ b, verifyWalk h ih grand cur rest i = .ok b := by
  intro rest
  induction rest with
  | nil => exact fun grand cur i => ⟨true, rfl⟩
  | cons parentLvl rest ihr =>
    intro grand cur i
    obtain ⟨lv, hlv⟩ := Option.isSome_iff_exists.mp
      (computeNodeHash_isSome h ih htot grand (getNode cur (2 * (i / 2))) (2 * (i / 2)))
    obtain ⟨rv, hrv⟩ := Option.isSome_iff_exists.mp
      (computeNodeHash_isSome h ih htot grand
        (getNode cur (rightChildIdx cur.length (i / 2))) (rightChildIdx cur.length (i / 2)))
    simp only [verifyWalk, hlv, hrv]
    by_cases hc : combineDigests h lv rv = (getNode parentLvl (i / 2)).hash
    · simpa [hc] using ihr cur parentLvl (i / 2)
    · exact ⟨false, by rw [if_neg hc]⟩

/-- C8: Verify on a tree with no leaves answers false with no error for
every query item; Verify answers false with no error for any item whose
digest computes but matches no stored leaf digest; and when every digest
computation succeeds, Verify never returns an error at all. -/
theorem merkle_c8 (ih : ItemHash) (mt : MerkleTree) (item : Item) :
    (leavesOf mt = [] → Verify ih mt item = .ok false) ∧
    (∀ qh, ih item = some qh → (∀ n ∈ leavesOf mt, n.hash ≠ qh) →
      Verify ih mt item = .ok false) ∧
    ((∀ d, (ih d).isSome) → ∃ b, Verify ih mt item = .ok b) := by
  rcases hlev : mt.levels with _ | ⟨l0, rest⟩
  · refine ⟨fun _ => ?_, fun qh _ _ => ?_, fun _ => ⟨false, ?_⟩⟩ <;>
      simp [Verify, hlev]
  · have hleaves : leavesOf mt = l0 := by simp [leavesOf, hlev, levelAt]
    refine ⟨fun hempty => ?_, fun qh hq hnone => ?_, fun htot => ?_⟩
    · have : l0.length = 0 := by rw [hleaves] at hempty; simp [hempty]
      simp [Verify, hlev, this]
    · by_cases hl : l0.length = 0
      · simp [Verify, hlev, hl]
      · have hfm : firstMatchIdx l0 qh = none :=
          firstMatchIdx_eq_none l0 qh (by rw [hleaves] at hnone; exact hnone)
        simp [Verify, hlev, hl, hq, hfm]
    · by_cases hl : l0.length = 0
      · exact ⟨false, by simp [Verify, hlev, hl]⟩
      · obtain ⟨qh, hq⟩ := Option.isSome_iff_exists.mp (htot item)
        rcases hfm : firstMatchIdx l0 qh with _ | i
        · exact ⟨false, by simp [Verify, hlev, hl, hq, hfm]⟩
        · obtain ⟨b, hb⟩ := verifyWalk_isOk mt.hasher ih htot rest [] l0 i
          exact ⟨b, by simp [Verify, hlev, hl, hq, hfm, hb]⟩

theorem merkle_c8_witness :
    leavesOf { levels := [], hasher := benchHasher } = [] ∧
    Verify (fun s => some s) { levels := [], hasher := benchHasher } [1] = .ok false ∧
    (∃ b, Verify (fun s => some s) { levels := [], hasher := benchHasher } [1] = .ok b) ∧
    Verify (fun s => some s) { levels := [], hasher := benchHasher } [1] = .ok false :=
  ⟨rfl,
    (merkle_c8 (fun s => some s) { levels := [], hasher := benchHasher } [1]).1 rfl,
    (merkle_c8 (fun s => some s) { levels := [], hasher := benchHasher } [1]).2.2
      (fun _ => rfl),
    (merkle_c8 (fun s => some s) { levels := [], hasher := benchHasher } [1]).2.1
      [1] rfl (fun n hn => absurd hn (List.not_mem_nil n))⟩

set_option maxRecDepth 8000 in
/-- C1 is violated by the code on the pooled concurrent path: concat puts
its pooled buffer back (defer cb.Close()) before NewParentNode reads it in
hf.Write, so with buffer reuse and at least two workers another worker can
refill the buffer first. Here the worker pairing leaves 2 and 3 refills
the buffer released by the worker pairing leaves 0 and 1: the build still
succeeds, but it stores a corrupted digest for that parent, and Verify
(single threaded, hence computing the uncorrupted value) answers false on
the original item 0x00. -/
theorem merkle_c1_pooled_race :
    BuildPooled { hasher := some benchHasher, maxGoroutine := 1000 }
        (stringDataHash benchHasher)
        (fun t c => if t = 0 ∧ c = 0 then some ([2], [3]) else none)
        [[0], [1], [2], [3]] =
      .ok { levels := [[⟨[0], some [0], false⟩, ⟨[1], some [1], false⟩,
                        ⟨[2], some [2], false⟩, ⟨[3], some [3], false⟩],
                       [⟨[2], none, false⟩, ⟨[2], none, false⟩],
                       [⟨[2], none, false⟩]], hasher := benchHasher } ∧
    ([0] : Item) ∈ [[0], [1], [2], [3]] ∧
    Verify (stringDataHash benchHasher)
      { levels := [[⟨[0], some [0], false⟩, ⟨[1], some [1], false⟩,
                    ⟨[2], some [2], false⟩, ⟨[3], some [3], false⟩],
                   [⟨[2], none, false⟩, ⟨[2], none, false⟩],
                   [⟨[2], none, false⟩]], hasher := benchHasher } [0] = .ok false :=
  ⟨rfl, by decide, rfl⟩

set_option maxRecDepth 8000 in
/-- C9 is violated by the code on the pooled concurrent path: two runs of
the same pooled configuration on the same items, one in which every race
window stays quiet and one in which the worker pairing leaves 2 and 3
refills the buffer released by the worker pairing leaves 0 and 1, both
succeed but produce different root digests, so pooled concurrent builds
are not deterministic. -/
theorem merkle_c9_pooled_race :
    BuildPooled { hasher := some benchHasher, maxGoroutine := 1000 }
        (stringDataHash benchHasher) (fun _ _ => none) [[0], [1], [2], [3]] =
      .ok { levels := [[⟨[0], some [0], false⟩, ⟨[1], some [1], false⟩,
                        ⟨[2], some [2], false⟩, ⟨[3], some [3], false⟩],
                       [⟨[0], none, false⟩, ⟨[2], none, false⟩],
                       [⟨[0], none, false⟩]], hasher := benchHasher } ∧
    BuildPooled { hasher := some benchHasher, maxGoroutine := 1000 }
        (stringDataHash benchHasher)
        (fun t c => if t = 0 ∧ c = 0 then some ([2], [3]) else none)
        [[0], [1], [2], [3]] =
      .ok { levels := [[⟨[0], some [0], false⟩, ⟨[1], some [1], false⟩,
                        ⟨[2], some [2], false⟩, ⟨[3], some [3], false⟩],
                       [⟨[2], none, false⟩, ⟨[2], none, false⟩],
                       [⟨[2], none, false⟩]], hasher := benchHasher } ∧
    rootHash { levels := [[⟨[0], some [0], false⟩, ⟨[1], some [1], false⟩,
                           ⟨[2], some [2], false⟩, ⟨[3], some [3], false⟩],
                          [⟨[0], none, false⟩, ⟨[2], none, false⟩],
                          [⟨[0], none, false⟩]], hasher := benchHasher } ≠
      rootHash { levels := [[⟨[0], some [0], false⟩, ⟨[1], some [1], false⟩,
                             ⟨[2], some [2], false⟩, ⟨[3], some [3], false⟩],
                            [⟨[2], none, false⟩, ⟨[2], none, false⟩],
                            [⟨[2], none, false⟩]], hasher := benchHasher } :=
  ⟨rfl, rfl, by decide⟩


theorem getNode_eq_get? : ∀ (l : List GNode) (k : Nat),
    getNode l k = (l.get? k).getD { hash := [], data := none, isOrphan := false } := by
  intro l
  induction l with
  | nil => intro k; cases k <;> rfl
  | cons a as ihl =>
    intro k
    cases k with
    | zero => rfl
    | succ k => simpa [getNode] using ihl k

theorem getNode_append_left : ∀ (l1 l2 : List GNode) (k : Nat), k < l1.length →
    getNode (l1 ++ l2) k = getNode l1 k := by
  intro l1
  induction l1 with
  | nil => intro l2 k hk; simp at hk
  | cons a as ihl =>
    intro l2 k hk
    cases k with
    | zero => rfl
    | succ k => simpa [getNode] using ihl l2 k (by simpa using hk)

theorem getNode_append_last : ∀ (l : List GNode) (x : GNode),
    getNode (l ++ [x]) l.length = x := by
  intro l x
  induction l with
  | nil => rfl
  | cons a as ihl => simpa [getNode] using ihl

theorem insertNode_length (a : GNode) :
    ∀ l : List GNode, (insertNode a l).length = l.length + 1 := by
  intro l
  induction l with
  | nil => rfl
  | cons b bs ihl =>
    by_cases hc : bytesCompare a.hash b.hash = -1 <;> simp [insertNode, hc, ihl]

theorem sortNodes_length : ∀ l : List GNode, (sortNodes l).length = l.length := by
  intro l
  induction l with
  | nil => rfl
  | cons a as ihl => simp [sortNodes, insertNode_length, ihl]

theorem mkLeaves_ok_spec (ih : ItemHash) :
    ∀ (data : List Item) (l : List GNode), mkLeaves ih data = .ok l →
      l.length = data.length ∧
      ∀ k, k < data.length → ∃ b, ih (itemAt data k) = some b ∧
        getNode l k = { hash := b, data := some (itemAt data k), isOrphan := false } := by
  intro data
  induction data with
  | nil =>
    intro l hl
    cases hl
    exact ⟨rfl, fun k hk => absurd hk (by simp)⟩
  | cons d ds ihd =>
    intro l hl
    unfold mkLeaves at hl
    split at hl
    · rename_i b rest hd hrest
      cases hl
      obtain ⟨hlen, hget⟩ := ihd rest hrest
      refine ⟨by simp [hlen], ?_⟩
      intro k hk
      cases k with
      | zero => exact ⟨b, by simpa [itemAt] using hd, by simp [getNode, itemAt]⟩
      | succ k => simpa [getNode, itemAt] using hget k (by simpa using hk)
    · cases hl
    · cases hl

theorem getNode_buildNextLevel (h : Hasher) (ns : List GNode) (c : Nat)
    (hc : c < (ns.length + 1) / 2) :
    getNode (buildNextLevel h ns) c =
      { hash := combineDigests h (getNode ns (2 * c)).hash
          (getNode ns (rightChildIdx ns.length c)).hash,
        data := none, isOrphan := false } := by
  rw [getNode_eq_get?]
  unfold buildNextLevel
  rw [List.get?_map, List.get?_range hc]
  rfl

theorem buildNextLevel_length (h : Hasher) (ns : List GNode) :
    (buildNextLevel h ns).length = (ns.length + 1) / 2 := by
  simp [buildNextLevel]

/-- C3: for an odd item count n the built leaf array has length n + 1, its
extra last slot (in construction order, i.e. with the sort flag off) holds
a new node that wraps the same item as the last real leaf, carries the
padding flag, and is distinct from that last real leaf; for an internal
level with an odd node count no new node is manufactured: the next level
has exactly ceil(n/2) slots and the parent of the single leftover node
references the same child index twice (self pairing). -/
theorem merkle_c3 (h : Hasher) (ih : ItemHash) (data : List Item) (lv : List GNode)
    (ns : List GNode)
    (hodd : data.length % 2 = 1)
    (hgen : generateLeafNodes h ih data = .ok lv)
    (hnodd : ns.length % 2 = 1) :
    lv.length = data.length + 1 ∧
    (h.isSort = false →
      (getNode lv data.length).isOrphan = true ∧
      (getNode lv data.length).data = some (itemAt data (data.length - 1)) ∧
      (getNode lv (data.length - 1)).isOrphan = false ∧
      (getNode lv (data.length - 1)).data = some (itemAt data (data.length - 1)) ∧
      getNode lv data.length ≠ getNode lv (data.length - 1)) ∧
    (buildNextLevel h ns).length = (ns.length + 1) / 2 ∧
    rightChildIdx ns.length ((ns.length - 1) / 2) = 2 * ((ns.length - 1) / 2) ∧
    getNode (buildNextLevel h ns) ((ns.length - 1) / 2) =
      { hash := combineDigests h (getNode ns (ns.length - 1)).hash
          (getNode ns (ns.length - 1)).hash,
        data := none, isOrphan := false } := by
  have hne : ¬ data.length = 0 := by omega
  unfold generateLeafNodes at hgen
  rw [if_neg hne] at hgen
  split at hgen
  · cases hgen
  · rename_i leaves hml
    split at hgen
    · cases hgen
    · rename_i padded hpadded
      cases hgen
      unfold padLeaves at hpadded
      rw [if_pos hodd] at hpadded
      split at hpadded
      case h_2 => cases hpadded
      rename_i b hpad
      cases hpadded
      obtain ⟨hlen, hget⟩ := mkLeaves_ok_spec ih data leaves hml
      have hself : rightChildIdx ns.length ((ns.length - 1) / 2) =
          2 * ((ns.length - 1) / 2) := by
        unfold rightChildIdx
        rw [if_pos (by omega)]
      have hchild : 2 * ((ns.length - 1) / 2) = ns.length - 1 := by omega
      refine ⟨?_, ?_, buildNextLevel_length h ns, hself, ?_⟩
      · cases hsort : h.isSort <;>
          simp [hsort, sortNodes_length, hlen]
      · intro hsort
        rw [hsort]
        simp only [Bool.false_eq_true, if_false]
        have hlast : getNode (leaves ++
            [{ hash := b, data := some (itemAt data (data.length - 1)), isOrphan := true }])
            data.length =
            { hash := b, data := some (itemAt data (data.length - 1)), isOrphan := true } := by
          rw [← hlen]
          exact getNode_append_last leaves _
        obtain ⟨b2, hb2, hb2get⟩ := hget (data.length - 1) (by omega)
        have hprev : getNode (leaves ++
            [{ hash := b, data := some (itemAt data (data.length - 1)), isOrphan := true }])
            (data.length - 1) =
            { hash := b2, data := some (itemAt data (data.length - 1)), isOrphan := false } := by
          rw [getNode_append_left leaves _ (data.length - 1) (by omega), hb2get]
        refine ⟨by rw [hlast], by rw [hlast], by rw [hprev], by rw [hprev], ?_⟩
        rw [hlast, hprev]
        intro heq
        have := congrArg GNode.isOrphan heq
        simp at this
      · rw [getNode_buildNextLevel h ns ((ns.length - 1) / 2) (by omega), hself, hchild]

theorem merkle_c3_witness :
    ([[1], [2], [3]] : List Item).length % 2 = 1 ∧
    generateLeafNodes benchHasher (fun s => some s) [[1], [2], [3]] =
      .ok [⟨[1], some [1], false⟩, ⟨[2], some [2], false⟩, ⟨[3], some [3], false⟩,
           ⟨[3], some [3], true⟩] ∧
    ([⟨[7], none, false⟩, ⟨[8], none, false⟩, ⟨[9], none, false⟩] : List GNode).length % 2 = 1 ∧
    ([⟨[1], some [1], false⟩, ⟨[2], some [2], false⟩, ⟨[3], some [3], false⟩,
      ⟨[3], some [3], true⟩] : List GNode).length = ([[1], [2], [3]] : List Item).length + 1 ∧
    (getNode [⟨[1], some [1], false⟩, ⟨[2], some [2], false⟩, ⟨[3], some [3], false⟩,
      ⟨[3], some [3], true⟩] 3).isOrphan = true :=
  ⟨by decide, rfl, by decide,
    (merkle_c3 benchHasher (fun s => some s) [[1], [2], [3]]
      [⟨[1], some [1], false⟩, ⟨[2], some [2], false⟩, ⟨[3], some [3], false⟩,
       ⟨[3], some [3], true⟩]
      [⟨[7], none, false⟩, ⟨[8], none, false⟩, ⟨[9], none, false⟩]
      (by decide) rfl (by decide)).1,
    ((merkle_c3 benchHasher (fun s => some s) [[1], [2], [3]]
      [⟨[1], some [1], false⟩, ⟨[2], some [2], false⟩, ⟨[3], some [3], false⟩,
       ⟨[3], some [3], true⟩]
      [⟨[7], none, false⟩, ⟨[8], none, false⟩, ⟨[9], none, false⟩]
      (by decide) rfl (by decide)).2.1 rfl).1⟩

/-- The leaf level is well formed: every leaf wraps an item whose digest
computation succeeds and yields the stored leaf digest. -/
def LeafOk (ih : ItemHash) (l0 : List GNode) : Prop :=
  ∀ n ∈ l0, ∃ d, n.data = some d ∧ ih d = some n.hash

/-- Recomputing any node of a level (from its item for a leaf, from the
stored digests of its children in the level grand below for an internal
node) reproduces its stored digest. -/
def RecomputeOk (h : Hasher) (ih : ItemHash) (grand cur : List GNode) : Prop :=
  ∀ k, k < cur.length → computeNodeHash h ih grand (getNode cur k) k = some (getNode cur k).hash

/-- Every level of the list is built from its predecessor by one
generateParentNodes reduction step. -/
def ChainFrom (h : Hasher) : List GNode → List (List GNode) → Prop
  | _, [] => True
  | prev, l :: ls => l = buildNextLevel h prev ∧ ChainFrom h l ls

theorem getNode_mem : ∀ (l : List GNode) (k : Nat), k < l.length → getNode l k ∈ l := by
  intro l
  induction l with
  | nil => intro k hk; simp at hk
  | cons a as ihl =>
    intro k hk
    cases k with
    | zero => exact List.mem_cons_self a as
    | succ k => exact List.mem_cons_of_mem a (ihl k (by simpa using hk))

theorem buildLevels_spec (h : Hasher) :
    ∀ (fuel : Nat) (ns : List GNode), ∃ rest,
      buildLevels h fuel ns = ns :: rest ∧ ChainFrom h ns rest := by
  intro fuel
  induction fuel with
  | zero => intro ns; exact ⟨[], rfl, trivial⟩
  | succ fuel ihf =>
    intro ns
    by_cases h2 : ns.length = 2
    · exact ⟨[buildNextLevel h ns], by simp [buildLevels, h2], rfl, trivial⟩
    · obtain ⟨rest, hbl, hcf⟩ := ihf (buildNextLevel h ns)
      exact ⟨buildNextLevel h ns :: rest, by simp [buildLevels, h2, hbl], rfl, hcf⟩

theorem recomputeOk_buildNextLevel (h : Hasher) (ih : ItemHash) (cur : List GNode) :
    RecomputeOk h ih cur (buildNextLevel h cur) := by
  intro k hk
  rw [buildNextLevel_length] at hk
  rw [getNode_buildNextLevel h cur k hk]
  rfl

theorem recomputeOk_of_leafOk (h : Hasher) (ih : ItemHash) (grand l0 : List GNode)
    (hleaf : LeafOk ih l0) : RecomputeOk h ih grand l0 := by
  intro k hk
  obtain ⟨d, hd, hih⟩ := hleaf (getNode l0 k) (getNode_mem l0 k hk)
  unfold computeNodeHash
  rw [hd]
  exact hih

theorem verifyWalk_ok (h : Hasher) (ih : ItemHash) :
    ∀ (rest : List (List GNode)) (grand cur : List GNode) (i : Nat),
      ChainFrom h cur rest → RecomputeOk h ih grand cur → i < cur.length →
      verifyWalk h ih grand cur rest i = .ok true := by
  intro rest
  induction rest with
  | nil => intro grand cur i _ _ _; rfl
  | cons parentLvl rest ihr =>
    intro grand cur i hchain hrec hi
    obtain ⟨hpl, hchain2⟩ := hchain
    have hplen : parentLvl.length = (cur.length + 1) / 2 := by
      rw [hpl, buildNextLevel_length]
    have hc : i / 2 < parentLvl.length := by rw [hplen]; omega
    have hlidx : 2 * (i / 2) < cur.length := by omega
    have hridx : rightChildIdx cur.length (i / 2) < cur.length := by
      unfold rightChildIdx
      split <;> omega
    have hL := hrec (2 * (i / 2)) hlidx
    have hR := hrec (rightChildIdx cur.length (i / 2)) hridx
    have hp : getNode parentLvl (i / 2) =
        { hash := combineDigests h (getNode cur (2 * (i / 2))).hash
            (getNode cur (rightChildIdx cur.length (i / 2))).hash,
          data := none, isOrphan := false } := by
      rw [hpl]
      exact getNode_buildNextLevel h cur (i / 2) (by omega)
    simp only [verifyWalk, hL, hR, hp]
    rw [if_pos trivial]
    exact ihr cur parentLvl (i / 2) hchain2
      (by rw [hpl]; exact recomputeOk_buildNextLevel h ih cur) hc

theorem mem_insertNode (x a : GNode) :
    ∀ l : List GNode, x ∈ insertNode a l ↔ x = a ∨ x ∈ l := by
  intro l
  induction l with
  | nil => simp [insertNode]
  | cons b bs ihl =>
    by_cases hc : bytesCompare a.hash b.hash = -1
    · simp [insertNode, hc]
    · simp only [insertNode, if_neg hc, List.mem_cons, ihl]
      tauto

theorem mem_sortNodes (x : GNode) : ∀ l : List GNode, x ∈ sortNodes l ↔ x ∈ l := by
  intro l
  induction l with
  | nil => simp [sortNodes]
  | cons a as ihl => simp [sortNodes, mem_insertNode, ihl]

theorem mkLeaves_stringDataHash (h : Hasher) :
    ∀ data : List Item, mkLeaves (stringDataHash h) data =
      .ok (data.map (fun d => { hash := h.hashFn d, data := some d, isOrphan := false })) := by
  intro data
  induction data with
  | nil => rfl
  | cons d ds ihd => simp [mkLeaves, stringDataHash, ihd]

theorem generateLeafNodes_string_spec (h : Hasher) (data : List Item)
    (hne : ¬ data.length = 0) :
    ∃ l0, generateLeafNodes h (stringDataHash h) data = .ok l0 ∧
      LeafOk (stringDataHash h) l0 ∧
      ∀ item, item ∈ data → ∃ n, n ∈ l0 ∧ n.hash = h.hashFn item := by
  have hmk := mkLeaves_stringDataHash h data
  by_cases hodd : data.length % 2 = 1
  · refine ⟨(fun padded => if h.isSort then sortNodes padded else padded)
      (data.map (fun d => { hash := h.hashFn d, data := some d, isOrphan := false }) ++
        [{ hash := h.hashFn (itemAt data (data.length - 1)),
           data := some (itemAt data (data.length - 1)), isOrphan := true }]), ?_, ?_, ?_⟩
    · have hpad : padLeaves (stringDataHash h) data
          (data.map (fun d => { hash := h.hashFn d, data := some d, isOrphan := false })) =
          .ok (data.map (fun d => { hash := h.hashFn d, data := some d, isOrphan := false }) ++
            [{ hash := h.hashFn (itemAt data (data.length - 1)),
               data := some (itemAt data (data.length - 1)), isOrphan := true }]) := by
        unfold padLeaves
        rw [if_pos hodd]
        rfl
      simp only [generateLeafNodes, if_neg hne, hmk, hpad]
    · intro n hn
      have hn2 : n ∈ data.map
          (fun d => ({ hash := h.hashFn d, data := some d, isOrphan := false } : GNode)) ++
          [{ hash := h.hashFn (itemAt data (data.length - 1)),
             data := some (itemAt data (data.length - 1)), isOrphan := true }] := by
        by_cases hs : h.isSort <;> simp only [hs] at hn
        · exact (mem_sortNodes n _).mp (by simpa using hn)
        · simpa using hn
      rcases List.mem_append.mp hn2 with hmap | hsing
      · obtain ⟨d, _, rfl⟩ := List.mem_map.mp hmap
        exact ⟨d, rfl, rfl⟩
      · rw [List.mem_singleton.mp hsing]
        exact ⟨itemAt data (data.length - 1), rfl, rfl⟩
    · intro item hitem
      refine ⟨{ hash := h.hashFn item, data := some item, isOrphan := false }, ?_, rfl⟩
      have hmap : ({ hash := h.hashFn item, data := some item, isOrphan := false } : GNode) ∈
          data.map (fun d => ({ hash := h.hashFn d, data := some d, isOrphan := false } : GNode)) :=
        List.mem_map.mpr ⟨item, hitem, rfl⟩
      by_cases hs : h.isSort <;> simp only [hs, if_true, if_false]
      · exact (mem_sortNodes _ _).mpr (List.mem_append_left _ hmap)
      · exact List.mem_append_left _ hmap
  · refine ⟨(fun padded => if h.isSort then sortNodes padded else padded)
      (data.map (fun d => { hash := h.hashFn d, data := some d, isOrphan := false })), ?_, ?_, ?_⟩
    · have hpad : padLeaves (stringDataHash h) data
          (data.map (fun d => { hash := h.hashFn d, data := some d, isOrphan := false })) =
          .ok (data.map (fun d => { hash := h.hashFn d, data := some d, isOrphan := false })) := by
        unfold padLeaves
        rw [if_neg hodd]
      simp only [generateLeafNodes, if_neg hne, hmk, hpad]
    · intro n hn
      have hn2 : n ∈ data.map
          (fun d => ({ hash := h.hashFn d, data := some d, isOrphan := false } : GNode)) := by
        by_cases hs : h.isSort <;> simp only [hs] at hn
        · exact (mem_sortNodes n _).mp (by simpa using hn)
        · simpa using hn
      obtain ⟨d, _, rfl⟩ := List.mem_map.mp hn2
      exact ⟨d, rfl, rfl⟩
    · intro item hitem
      refine ⟨{ hash := h.hashFn item, data := some item, isOrphan := false }, ?_, rfl⟩
      have hmap : ({ hash := h.hashFn item, data := some item, isOrphan := false } : GNode) ∈
          data.map (fun d => ({ hash := h.hashFn d, data := some d, isOrphan := false } : GNode)) :=
        List.mem_map.mpr ⟨item, hitem, rfl⟩
      by_cases hs : h.isSort <;> simp only [hs, if_true, if_false]
      · exact (mem_sortNodes _ _).mpr hmap
      · exact hmap

theorem firstMatchIdx_of_mem (l : List GNode) (qh : Digest)
    (hx : ∃ n, n ∈ l ∧ n.hash = qh) :
    ∃ i, firstMatchIdx l qh = some i ∧ i < l.length := by
  induction l with
  | nil => obtain ⟨n, hn, _⟩ := hx; cases hn
  | cons a as ihl =>
    by_cases ha : a.hash = qh
    · exact ⟨0, by simp [firstMatchIdx, ha], by simp⟩
    · obtain ⟨n, hn, hh⟩ := hx
      rcases List.mem_cons.mp hn with rfl | hmem
      · exact absurd hh ha
      · obtain ⟨i, hi, hlt⟩ := ihl ⟨n, hmem, hh⟩
        refine ⟨i + 1, by simp [firstMatchIdx, ha, hi], by simp; omega⟩

/-- The race free fragment of the round trip property: for every non empty
item sequence, a non nil hasher and a non zero goroutine cap, the race free
build succeeds and Verify on the resulting tree answers true with no error
for each original input item. This covers the non pooled path and pooled
builds with a single worker; the pooled concurrent path can violate the
round trip through the buffer use after release race, see
merkle_c1_pooled_race. -/
theorem buildVerify_raceFree (h : Hasher) (mg : Nat) (data : List Item) (item : Item)
    (hmg : mg ≠ 0) (hne : data ≠ []) (hitem : item ∈ data) :
    ∃ mt, Build { hasher := some h, maxGoroutine := mg } (stringDataHash h) data = .ok mt ∧
      Verify (stringDataHash h) mt item = .ok true := by
  have hlen : ¬ data.length = 0 := by
    intro h0
    exact hne (List.length_eq_zero.mp h0)
  obtain ⟨l0, hgen, hleaf, hmem⟩ := generateLeafNodes_string_spec h data hlen
  obtain ⟨rest, hbl, hchain⟩ := buildLevels_spec h l0.length l0
  refine ⟨{ levels := buildLevels h l0.length l0, hasher := h }, ?_, ?_⟩
  · simp only [Build, if_neg hmg, if_neg hlen, hgen]
  · have hl0ne : ¬ l0.length = 0 := by
      obtain ⟨n, hn, _⟩ := hmem item hitem
      intro h0
      rw [List.length_eq_zero.mp h0] at hn
      cases hn
    obtain ⟨i, hfm, hilt⟩ := firstMatchIdx_of_mem l0 (h.hashFn item) (hmem item hitem)
    have hwalk := verifyWalk_ok h (stringDataHash h) rest [] l0 i hchain
      (recomputeOk_of_leafOk h (stringDataHash h) [] l0 hleaf) hilt
    simp only [Verify, hbl, if_neg hl0ne, stringDataHash, hfm]
    exact hwalk

theorem buildVerify_raceFree_instance :
    (5 : Nat) ≠ 0 ∧ ([[1], [2], [3]] : List Item) ≠ [] ∧ ([2] : Item) ∈ [[1], [2], [3]] ∧
    ∃ mt, Build { hasher := some benchHasher, maxGoroutine := 5 }
        (stringDataHash benchHasher) [[1], [2], [3]] = .ok mt ∧
      Verify (stringDataHash benchHasher) mt [2] = .ok true :=
  ⟨by decide, by decide, by decide,
    buildVerify_raceFree benchHasher 5 [[1], [2], [3]] [2] (by decide) (by decide) (by decide)⟩

theorem tamperLevel_getNode_self (hNew : Digest) :
    ∀ (l : List GNode) (m : Nat), m < l.length →
      getNode (tamperLevel l m hNew) m = tamperNode (getNode l m) hNew := by
  intro l
  induction l with
  | nil => intro m hm; simp at hm
  | cons a as ihl =>
    intro m hm
    cases m with
    | zero => rfl
    | succ m => simpa [tamperLevel, getNode] using ihl m (by simpa using hm)

theorem firstMatchIdx_lt (qh : Digest) :
    ∀ (l : List GNode) (i : Nat), firstMatchIdx l qh = some i → i < l.length := by
  intro l
  induction l with
  | nil => intro i hi; cases hi
  | cons a as ihl =>
    intro i hi
    unfold firstMatchIdx at hi
    split at hi
    · cases hi
      simp
    · cases hfm : firstMatchIdx as qh with
      | none => rw [hfm] at hi; cases hi
      | some k =>
        rw [hfm] at hi
        cases hi
        have := ihl k hfm
        simp only [List.length_cons]
        omega

theorem verifyWalk_tampered (h : Hasher) (ih : ItemHash) :
    ∀ (pos : Nat) (rest : List (List GNode)) (grand cur : List GNode) (i m : Nat)
      (hNew : Digest),
      ChainFrom h cur rest → RecomputeOk h ih grand cur → i < cur.length →
      pos < rest.length → m < (levelAt rest pos).length →
      i / 2 ^ (pos + 1) = m →
      hNew ≠ (getNode (levelAt rest pos) m).hash →
      verifyWalk h ih grand cur (tamper rest pos m hNew) i = .ok false := by
  intro pos
  induction pos with
  | zero =>
    intro rest grand cur i m hNew hchain hrec hi hpos hm hdiv hneq
    cases rest with
    | nil => simp at hpos
    | cons parentLvl rest2 =>
      obtain ⟨hpl, _⟩ := hchain
      have him : i / 2 = m := by simpa using hdiv
      have hmp : m < parentLvl.length := hm
      have hplen : parentLvl.length = (cur.length + 1) / 2 := by
        rw [hpl, buildNextLevel_length]
      have hlidx : 2 * m < cur.length := by omega
      have hridx : rightChildIdx cur.length m < cur.length := by
        unfold rightChildIdx
        split <;> omega
      have hL := hrec (2 * m) hlidx
      have hR := hrec (rightChildIdx cur.length m) hridx
      have horig : getNode parentLvl m =
          { hash := combineDigests h (getNode cur (2 * m)).hash
              (getNode cur (rightChildIdx cur.length m)).hash,
            data := none, isOrphan := false } := by
        rw [hpl]
        exact getNode_buildNextLevel h cur m (by omega)
      have hp2 : getNode (tamperLevel parentLvl m hNew) m =
          tamperNode (getNode parentLvl m) hNew :=
        tamperLevel_getNode_self hNew parentLvl m hmp
      simp only [tamper, verifyWalk, him, hL, hR, hp2]
      rw [if_neg (fun hcond => hneq (by
        show hNew = (getNode parentLvl m).hash
        rw [horig]
        exact hcond.symm))]
  | succ pos ihp =>
    intro rest grand cur i m hNew hchain hrec hi hpos hm hdiv hneq
    cases rest with
    | nil => simp at hpos
    | cons parentLvl rest2 =>
      obtain ⟨hpl, hchain2⟩ := hchain
      have hplen : parentLvl.length = (cur.length + 1) / 2 := by
        rw [hpl, buildNextLevel_length]
      have hc : i / 2 < parentLvl.length := by rw [hplen]; omega
      have hlidx : 2 * (i / 2) < cur.length := by omega
      have hridx : rightChildIdx cur.length (i / 2) < cur.length := by
        unfold rightChildIdx
        split <;> omega
      have hL := hrec (2 * (i / 2)) hlidx
      have hR := hrec (rightChildIdx cur.length (i / 2)) hridx
      have hp : getNode parentLvl (i / 2) =
          { hash := combineDigests h (getNode cur (2 * (i / 2))).hash
              (getNode cur (rightChildIdx cur.length (i / 2))).hash,
            data := none, isOrphan := false } := by
        rw [hpl]
        exact getNode_buildNextLevel h cur (i / 2) (by omega)
      have hdiv2 : i / 2 / 2 ^ (pos + 1) = m := by
        rw [Nat.div_div_eq_div_mul]
        rw [← hdiv]
        congr 1
        rw [pow_succ]
        omega
      simp only [tamper, verifyWalk, hL, hR, hp]
      rw [if_pos trivial]
      exact ihp rest2 cur parentLvl (i / 2) m hNew hchain2
        (by rw [hpl]; exact recomputeOk_buildNextLevel h ih cur) hc
        (by simpa using hpos) hm hdiv2 hneq

/-- C4: mutate the stored digest of a non root internal node of a built
tree; Verify on an original item whose (first matching) leaf lies under
that node answers false, because verification recomputes digests along the
path instead of trusting the stored digest of the tampered ancestor. The
node sits at index m of level j (level 0 holds the leaves, the last level
the root), and the leaf found by the scan sits at index i with
i / 2 ^ j = m, which says exactly that the tampered node is its level j
ancestor. -/
theorem merkle_c4 (h : Hasher) (mg : Nat) (data : List Item) (mt : MerkleTree)
    (j m i : Nat) (hNew : Digest) (item : Item)
    (hbuild : Build { hasher := some h, maxGoroutine := mg } (stringDataHash h) data = .ok mt)
    (hj1 : 1 ≤ j) (hjroot : j + 1 < mt.levels.length)
    (hm : m < (levelAt mt.levels j).length)
    (hneq : hNew ≠ (getNode (levelAt mt.levels j) m).hash)
    (hfm : firstMatchIdx (levelAt mt.levels 0) (h.hashFn item) = some i)
    (hunder : i / 2 ^ j = m) :
    Verify (stringDataHash h) { mt with levels := tamper mt.levels j m hNew } item = .ok false := by
  simp only [Build] at hbuild
  by_cases hmg : mg = 0
  · rw [if_pos hmg] at hbuild
    cases hbuild
  · rw [if_neg hmg] at hbuild
    by_cases hdl : data.length = 0
    · rw [if_pos hdl] at hbuild
      cases hbuild
    · rw [if_neg hdl] at hbuild
      obtain ⟨l0, hgen, hleaf, hmem⟩ := generateLeafNodes_string_spec h data hdl
      rw [hgen] at hbuild
      cases hbuild
      obtain ⟨rest, hbl, hchain⟩ := buildLevels_spec h l0.length l0
      rw [hbl] at hjroot hm hneq hfm ⊢
      obtain ⟨pos, rfl⟩ : ∃ pos, j = pos + 1 := ⟨j - 1, by omega⟩
      have hfm0 : firstMatchIdx l0 (h.hashFn item) = some i := hfm
      have hilt : i < l0.length := firstMatchIdx_lt (h.hashFn item) l0 i hfm0
      have hl0ne : ¬ l0.length = 0 := by omega
      have hwalk := verifyWalk_tampered h (stringDataHash h) pos rest [] l0 i m hNew
        hchain (recomputeOk_of_leafOk h (stringDataHash h) [] l0 hleaf) hilt
        (by simp only [List.length_cons] at hjroot; omega) hm hunder hneq
      simp only [Verify, tamper, if_neg hl0ne, stringDataHash, hfm0]
      exact hwalk

set_option maxRecDepth 8000 in
theorem merkle_c4_witness :
    Build { hasher := some benchHasher, maxGoroutine := 5 } (stringDataHash benchHasher)
        [[0], [1], [2], [3]] =
      .ok { levels := [[⟨[0], some [0], false⟩, ⟨[1], some [1], false⟩,
                        ⟨[2], some [2], false⟩, ⟨[3], some [3], false⟩],
                       [⟨[0], none, false⟩, ⟨[2], none, false⟩],
                       [⟨[0], none, false⟩]], hasher := benchHasher } ∧
    Verify (stringDataHash benchHasher)
      { levels := tamper [[⟨[0], some [0], false⟩, ⟨[1], some [1], false⟩,
                           ⟨[2], some [2], false⟩, ⟨[3], some [3], false⟩],
                          [⟨[0], none, false⟩, ⟨[2], none, false⟩],
                          [⟨[0], none, false⟩]] 1 0 [7],
        hasher := benchHasher } [0] = .ok false :=
  ⟨rfl,
    merkle_c4 benchHasher 5 [[0], [1], [2], [3]]
      { levels := [[⟨[0], some [0], false⟩, ⟨[1], some [1], false⟩,
                    ⟨[2], some [2], false⟩, ⟨[3], some [3], false⟩],
                   [⟨[0], none, false⟩, ⟨[2], none, false⟩],
                   [⟨[0], none, false⟩]], hasher := benchHasher }
      1 0 0 [7] [0] rfl (by decide) (by decide) (by decide) (by decide)
      (by decide) (by decide)⟩
